import Mathlib

/-
  Verification of the Usta file-reconciliation engine.

  Shallow embedding of the name-matching core of `web_scan_manager.py`,
  `web_update_manager.py` and `web_file_add_manager.py`.  Filenames and
  paths are modelled as `List Char`.  Python `str.lower` and `str.isdigit`
  are modelled for the ASCII range (the filename alphabet the program
  works with); `re.sub` patterns are translated to the equivalent
  list-level operations, justified case by case in the comments below.
-/

namespace Usta

/-! ## Name normalizer (§4.1)

`lowerChar` models what Python `str.lower` does to one ASCII character
(codes 65–90 map to codes 97–122, everything else is unchanged). -/

def lowerChar (c : Char) : Char :=
  if h : 65 ≤ c.toNat ∧ c.toNat ≤ 90 then
    Char.ofNatAux (c.toNat + 32) (Or.inl (by omega))
  else c

/-- Model of Python `s.lower()` on a filename. -/
def lowerL (s : List Char) : List Char := s.map lowerChar

/-- Model of `if name.endswith('.pdf'): name = name[:-4]`
(from `WebScanManager.extract_file_pattern`). -/
def stripPdf (s : List Char) : List Char :=
  if ((".pdf").toList).isSuffixOf s then s.take (s.length - 4) else s

/-- Model of `re.sub(r'_\d+$', '', name)`: if the string ends with an
underscore followed by a (maximal, nonempty) run of digits, drop that
underscore and the digits; otherwise leave the string unchanged.  This is
exactly what the regex does: the match, if any, is the maximal trailing
digit run together with the `_` immediately before it. -/
def stripUD (s : List Char) : List Char :=
  let r := s.reverse
  let n := (r.takeWhile Char.isDigit).length
  if n = 0 then s
  else
    match r.drop n with
    | '_' :: rest => rest.reverse
    | _ => s

/-- Model of `if name.startswith('i') and len(name) > 1: name = name[1:]`. -/
def stripLeadingI (s : List Char) : List Char :=
  match s with
  | 'i' :: rest => if rest.isEmpty then s else rest
  | _ => s

/-- `WebScanManager.extract_file_pattern` (web_scan_manager.py, lines
814–827): lowercase, strip a `.pdf` extension, strip one trailing
`_<digits>` run, strip a single leading `i` when more follows. -/
def extract_file_pattern (f : List Char) : List Char :=
  stripLeadingI (stripUD (stripPdf (lowerL f)))

/-- `WebUpdateManager.extract_file_pattern` (web_update_manager.py, lines
338–345): lowercase; only when the name ends in `.pdf`, replace a trailing
`_<digits>.pdf` by `.pdf` (the `re.sub(r'_\d+\.pdf$', '.pdf', name)` acts
on the part before the extension exactly like `stripUD`), then drop a
leading `i` only when the following character is a digit.  The extension
is never removed. -/
def update_extract_file_pattern (f : List Char) : List Char :=
  let name := lowerL f
  if ((".pdf").toList).isSuffixOf name then
    let name1 := stripUD (name.take (name.length - 4)) ++ ((".pdf").toList)
    match name1 with
    | 'i' :: c :: rest => if c.isDigit then c :: rest else name1
    | _ => name1
  else name

/-- The canonical base name used for dedup throughout the scan manager:
`base_name = file_path.name.lower(); if base_name.startswith('i'):
base_name = base_name[1:]` — note there is no length guard here, unlike
`extract_file_pattern`. -/
def canonBase (name : List Char) : List Char :=
  match lowerL name with
  | 'i' :: rest => rest
  | b => b

/-! ## Reference index and match engine (§4.2, §4.3)

A reference file is a (path, name) pair; during a scan the index maps a
lowercased filename (resp. a pattern key) to the list of reference files
carrying it, in indexing order.  The dict `ana_dosya_mapping` built by
`_index_main_folder_fast` by appending each file to its key's bucket is,
extensionally, a filter of the indexed file list, which is how we model
the lookups; `name in ana_dosya_isimleri` is equivalent to the lookup
being nonempty. -/

structure FileEntry where
  path : List Char
  name : List Char
deriving DecidableEq, Repr

inductive MatchType where
  | EXACT
  | I_PREFIX_REMOVED
  | I_PREFIX_ADDED
  | PATTERN
deriving DecidableEq, Repr

/-- `ana_dosya_mapping[key]`: the reference files whose lowercased name is
`key`, in indexing order. -/
def lookupName (files : List FileEntry) (key : List Char) : List FileEntry :=
  files.filter (fun p => decide (lowerL p.name = key))

/-- `ana_dosya_patterns[key]`: the reference files whose pattern key is
`key`, in indexing order. -/
def lookupPattern (files : List FileEntry) (key : List Char) : List FileEntry :=
  files.filter (fun p => decide (extract_file_pattern p.name = key))

/-- Accumulator of the per-target candidate loop of
`_scan_filenames_thread`: the `matched_base_names` set and the parallel
`match_locations` / `match_types` lists (kept as one list of pairs). -/
abbrev MState := List (List Char) × List (FileEntry × MatchType)

/-- One candidate append: guarded by `base_name not in matched_base_names
and file_path not in match_locations` (web_scan_manager.py, e.g. lines
1126–1130). -/
def addCand (t : MatchType) (st : MState) (p : FileEntry) : MState :=
  let b := canonBase p.name
  if b ∈ st.1 ∨ p ∈ st.2.map Prod.fst then st
  else (b :: st.1, st.2 ++ [(p, t)])

def addCands (t : MatchType) (st : MState) (ps : List FileEntry) : MState :=
  ps.foldl (addCand t) st

/-- The four matching strategies applied in their fixed order to one
target filename (web_scan_manager.py, lines 1108–1176): EXACT, then
I-PREFIX REMOVED (only when the lowercased target starts with `i`), then
I-PREFIX ADDED, then PATTERN. -/
def matchOne (files : List FileEntry) (target : List Char) : List (FileEntry × MatchType) :=
  let nl := lowerL target
  let tp := extract_file_pattern target
  let st1 := addCands MatchType.EXACT ([], []) (lookupName files nl)
  let st2 :=
    if nl.head? = some 'i' then
      addCands MatchType.I_PREFIX_REMOVED st1 (lookupName files nl.tail)
    else st1
  let st3 := addCands MatchType.I_PREFIX_ADDED st2 (lookupName files ('i' :: nl))
  let st4 := addCands MatchType.PATTERN st3 (lookupPattern files tp)
  st4.2

/-- One step of the post-gathering dedup pass (web_scan_manager.py, lines
1184–1200): keep the first candidate per canonical base name. -/
def dedupStep (st : MState) (pm : FileEntry × MatchType) : MState :=
  if canonBase pm.1.name ∈ st.1 then st
  else (canonBase pm.1.name :: st.1, st.2 ++ [pm])

def dedupByBase (ps : List (FileEntry × MatchType)) : List (FileEntry × MatchType) :=
  (ps.foldl dedupStep ([], [])).2

/-- One entry of `eslesen_dosyalar`: the target's own filename and its
deduplicated `(match_location, match_type)` list. -/
structure MatchRecord where
  target : List Char
  matchList : List (FileEntry × MatchType)
deriving DecidableEq, Repr

/-- The per-target loop of `_scan_filenames_thread`: a target with at
least one gathered candidate produces a `MatchRecord` (with the deduped
list), a target with none goes to `non_matched_files`.  Input order is
preserved in both output lists. -/
def scanRecords (files : List FileEntry) : List (List Char) → List MatchRecord × List (List Char)
  | [] => ([], [])
  | t :: ts =>
    let rest := scanRecords files ts
    let cands := matchOne files t
    if cands.isEmpty then (rest.1, t :: rest.2)
    else ({ target := t, matchList := dedupByBase cands } :: rest.1, rest.2)

/-- `unique_matched_files` (web_scan_manager.py, lines 1244–1259): the
number of distinct canonical base names among the matched targets'
filenames; a target literally named `None` is skipped by the
`target_file != '(filename-only)/None'` guard. -/
def uniqueMatchedOf (records : List MatchRecord) : Nat :=
  ((records.filterMap fun r =>
      if r.target = (("None").toList) then none else some (canonBase r.target)).dedup).length

/-- `match_percentage` (line 1262): the code computes
`int((u / max(1, t)) * 100)` with Python float arithmetic when `t > 0`,
else `0`.  The field is kept only so the result structure mirrors the
code; it is idealized here as exact natural division, and the float
evaluation can differ from this idealization at some inputs (for
example `int((29 / 100) * 100)` is 28 in Python, not 29), so no claim
is settled against this field. -/
def matchPercentageOf (u t : Nat) : Nat :=
  if 0 < t then u * 100 / max 1 t else 0

/-- The aggregate statistics of one filename-only scan
(web_scan_manager.py, lines 1240–1273). -/
structure ScanResult where
  totalTargets : Nat
  records : List MatchRecord
  nonMatchedNames : List (List Char)
  uniqueMatched : Nat
  totalIndividualMatches : Nat
  nonMatchedCount : Nat
  matchPercentage : Nat
deriving DecidableEq, Repr

def matchAll (files : List FileEntry) (targets : List (List Char)) : ScanResult :=
  let rs := scanRecords files targets
  { totalTargets := targets.length
    records := rs.1
    nonMatchedNames := rs.2
    uniqueMatched := uniqueMatchedOf rs.1
    totalIndividualMatches := (rs.1.map fun r => r.matchList.length).sum
    nonMatchedCount := rs.2.length
    matchPercentage := matchPercentageOf (uniqueMatchedOf rs.1) targets.length }

/-! ## File materializer: the copy loops (§4.5)

`copy_matched_files` and `copy_non_matched_files` first reduce their
input to `copyable_files` (modelled below for C6) and then run a
per-entry loop.  The two loops behave differently:

* In `copy_matched_files` (web_scan_manager.py, lines 745–776) the loop
  reads `file_info['source_path']` / `file_info['target_name']` and
  calls `shutil.copy2(source, destination / name)` unconditionally —
  there is no check whether the destination file already exists, and
  `copy2` replaces an existing destination.  We model a destination
  directory as a map from file name to the source path currently
  backing it, and an error-free run of that loop.

* In `copy_non_matched_files` (lines 511–547) the loop instead reads
  `file_info.get('path', '')` — but the deduplicated entries are dicts
  whose only keys are `source_path` and `target_name`, so the source
  path string is the empty default for every entry and no copy ever
  succeeds in that flow (the failure handler then reads the equally
  missing key `name`, so the first failure aborts the batch).  The
  entry dicts and the `dict.get` access are modelled below. -/

structure CopyEntry where
  path : List Char
  name : List Char
  mtime : Int
deriving DecidableEq, Repr

abbrev Dir : Type := List Char → Option (List Char)

/-- Effect of `shutil.copy2(v, dir / n)` on the destination directory:
the name `n` is now backed by source `v`, whether or not it existed. -/
def setFile (d : Dir) (n v : List Char) : Dir :=
  fun m => if m = n then some v else d m

/-- The `copy_matched_files` copy loop over the deduplicated entry list. -/
def runCopyLoop (d : Dir) (es : List CopyEntry) : Dir :=
  es.foldl (fun d e => setFile d e.name e.path) d

/-- The value dict stored for one deduplicated entry by the pre-copy
dedup of both flows (web_scan_manager.py, lines 477–484 and 710–717):
its only keys are `source_path` and `target_name`. -/
def mkEntryDict (src nm : List Char) : List (List Char × List Char) :=
  [(("source_path").toList, src), (("target_name").toList, nm)]

/-- Python `dict.get(key, default)` on such a dict. -/
def dget (d : List (List Char × List Char)) (k dflt : List Char) : List Char :=
  match d.find? fun kv => decide (kv.1 = k) with
  | some kv => kv.2
  | none => dflt

/-- The last entry of `es` bearing the name `n`, if any. -/
def lastNamed : List CopyEntry → List Char → Option CopyEntry
  | [], _ => none
  | e :: es, n =>
    match lastNamed es n with
    | some x => some x
    | none => if e.name = n then some e else none

/-- What one destination name holds after the loop: the last copied
source for that name, else whatever was there before. -/
def finalContent (d : Dir) (es : List CopyEntry) (n : List Char) : Option (List Char) :=
  match lastNamed es n with
  | some e => some e.path
  | none => d n

/-! ## File materializer: the pre-copy dedup (C6)

The `copyable_files` construction of `copy_non_matched_files` (lines
437–489) and `copy_matched_files` (lines 672–722): two insertion-ordered
maps, `filename_to_file` keyed by lowercased filename and
`base_name_to_file` keyed by the canonical base name; an entry whose base
name is already present is skipped outright (`continue`); otherwise, if
its lowercased filename is present the newer-mtime replacement branch
runs, else the entry is inserted into both maps.  `copyable_files` is
`list(filename_to_file.values())` in insertion order. -/

abbrev AList : Type := List (List Char × CopyEntry)

def alContains (m : AList) (k : List Char) : Bool :=
  m.any fun kv => decide (kv.1 = k)

def alGet (m : AList) (k : List Char) : Option CopyEntry :=
  (m.find? fun kv => decide (kv.1 = k)).map Prod.snd

/-- Python dict assignment on an existing key keeps its position. -/
def alSet (m : AList) (k : List Char) (v : CopyEntry) : AList :=
  if alContains m k then m.map (fun kv => if kv.1 = k then (k, v) else kv)
  else m ++ [(k, v)]

def dedupCopyStep (st : AList × AList) (e : CopyEntry) : AList × AList :=
  let fl := lowerL e.name
  let b := canonBase e.name
  if alContains st.2 b then st
  else
    match alGet st.1 fl with
    | some prev =>
      if prev.mtime < e.mtime then (alSet st.1 fl e, alSet st.2 b e) else st
    | none => (st.1 ++ [(fl, e)], st.2 ++ [(b, e)])

def copyableFiles (es : List CopyEntry) : List CopyEntry :=
  ((es.foldl dedupCopyStep ([], [])).1).map Prod.snd

/-! ## Section-path validation (§4.2, C8)

`_scan_filenames_thread` (lines 1052–1064) and `_update_thread` (lines
141–161) keep a selected section `s` iff `sp.exists() and sp.is_dir() and
sp.resolve().as_posix().startswith(root.resolve().as_posix())`.  We model
the filesystem as the list of existing directories by their resolved
POSIX path strings, so the containment test is a plain string-prefix
test.  `isDescendantPath` is the property the spec asserts: `s` is the
root itself or lies below it as a path component. -/

def sectionFilter (dirs : List (List Char)) (root : List Char)
    (sections : List (List Char)) : List (List Char) :=
  sections.filter fun s => decide (s ∈ dirs) && root.isPrefixOf s

def isDescendantPath (root s : List Char) : Bool :=
  decide (s = root) || (root ++ ['/']).isPrefixOf s

/-! ## Placement fan-out (`distribute_file_to_mix_folders`, C10)

After validation (known mix code, extractable subfolder key, nonempty
target list) the function loops over the found target directories
(web_file_add_manager.py, lines 785–821).  Each iteration runs in a
`try` block: an exception anywhere in it increments `errors`; otherwise
the iteration increments exactly one of `exists_count` (destination file
already present) or `added` (file copied).  A target directory is
summarized by whether its destination file pre-exists and whether the
iteration raises. -/

structure PlaceTarget where
  destFileExists : Bool
  opFails : Bool
deriving DecidableEq, Repr

inductive PlaceOutcome where
  | copied
  | already
  | failed
deriving DecidableEq, Repr

def placeOne (t : PlaceTarget) : PlaceOutcome :=
  if t.opFails then PlaceOutcome.failed
  else if t.destFileExists then PlaceOutcome.already
  else PlaceOutcome.copied

/-- The stats block returned by `distribute_file_to_mix_folders`:
`targets_found`, `files_copied`, `exists`, `errors`. -/
structure PlaceStats where
  targetsFound : Nat
  filesCopied : Nat
  existsCount : Nat
  errors : Nat
deriving DecidableEq, Repr

def placeStep (st : PlaceStats) (t : PlaceTarget) : PlaceStats :=
  match placeOne t with
  | PlaceOutcome.copied => { st with filesCopied := st.filesCopied + 1 }
  | PlaceOutcome.already => { st with existsCount := st.existsCount + 1 }
  | PlaceOutcome.failed => { st with errors := st.errors + 1 }

def distributeStats (ts : List PlaceTarget) : PlaceStats :=
  ts.foldl placeStep { targetsFound := ts.length, filesCopied := 0, existsCount := 0, errors := 0 }

/-! ## Helper lemmas about the normalizer -/

theorem lowerChar_toNat_of (c : Char) (h : 65 ≤ c.toNat ∧ c.toNat ≤ 90) :
    (lowerChar c).toNat = c.toNat + 32 := by
  unfold lowerChar
  rw [dif_pos h]
  rfl

theorem lowerChar_eq_self_of (c : Char) (h : ¬(65 ≤ c.toNat ∧ c.toNat ≤ 90)) :
    lowerChar c = c := by
  unfold lowerChar
  rw [dif_neg h]

theorem lowerChar_idem (c : Char) : lowerChar (lowerChar c) = lowerChar c := by
  by_cases h : 65 ≤ c.toNat ∧ c.toNat ≤ 90
  · apply lowerChar_eq_self_of
    rw [lowerChar_toNat_of c h]
    omega
  · rw [lowerChar_eq_self_of c h, lowerChar_eq_self_of c h]

theorem lowerL_eq_self : ∀ s : List Char, (∀ c ∈ s, lowerChar c = c) → lowerL s = s := by
  intro s
  induction s with
  | nil => intro _; rfl
  | cons c cs ih =>
    intro h
    simp only [lowerL, List.map_cons]
    rw [h c (List.mem_cons_self c cs)]
    have hcs := ih fun d hd => h d (List.mem_cons_of_mem c hd)
    simp only [lowerL] at hcs
    rw [hcs]

theorem lowerChar_fixed_of_mem_lowerL (s : List Char) (c : Char) (hc : c ∈ lowerL s) :
    lowerChar c = c := by
  obtain ⟨d, _, rfl⟩ := List.mem_map.mp hc
  exact lowerChar_idem d

theorem mem_of_mem_stripPdf (s : List Char) (c : Char) (hc : c ∈ stripPdf s) : c ∈ s := by
  unfold stripPdf at hc
  split at hc
  · exact List.mem_of_mem_take hc
  · exact hc

theorem mem_of_mem_stripUD (s : List Char) (c : Char) (hc : c ∈ stripUD s) : c ∈ s := by
  simp only [stripUD] at hc
  split at hc
  · exact hc
  · split at hc
    · rename_i rest heq
      rw [List.mem_reverse] at hc
      have h2 : c ∈ s.reverse.drop (s.reverse.takeWhile Char.isDigit).length := by
        rw [heq]
        exact List.mem_cons_of_mem _ hc
      exact List.mem_reverse.mp (List.mem_of_mem_drop h2)
    · exact hc

theorem mem_of_mem_stripLeadingI (s : List Char) (c : Char) (hc : c ∈ stripLeadingI s) :
    c ∈ s := by
  unfold stripLeadingI at hc
  split at hc
  · rename_i rest
    split at hc
    · exact hc
    · exact List.mem_cons_of_mem _ hc
  · exact hc

theorem lowerChar_fixed_of_mem_efp (f : List Char) (c : Char)
    (hc : c ∈ extract_file_pattern f) : lowerChar c = c := by
  unfold extract_file_pattern at hc
  exact lowerChar_fixed_of_mem_lowerL f c
    (mem_of_mem_stripPdf _ _ (mem_of_mem_stripUD _ _ (mem_of_mem_stripLeadingI _ _ hc)))

/-- The output of the scan pattern function is already lowercase. -/
theorem lowerL_efp (f : List Char) :
    lowerL (extract_file_pattern f) = extract_file_pattern f :=
  lowerL_eq_self _ fun c hc => lowerChar_fixed_of_mem_efp f c hc

/-! ## Helper lemmas about the match engine -/

/-- No two entries of a list share a canonical base name. -/
def DistinctBases (l : List (FileEntry × MatchType)) : Prop :=
  l.Pairwise fun a b => canonBase a.1.name ≠ canonBase b.1.name

theorem dedupStep_length_le (st : MState) (pm : FileEntry × MatchType) :
    st.2.length ≤ (dedupStep st pm).2.length := by
  unfold dedupStep
  split
  · exact le_refl _
  · simp

theorem dedupFoldl_length_le (ps : List (FileEntry × MatchType)) :
    ∀ st : MState, st.2.length ≤ (ps.foldl dedupStep st).2.length := by
  induction ps with
  | nil => intro st; exact le_refl _
  | cons p ps ih =>
    intro st
    exact le_trans (dedupStep_length_le st p) (ih (dedupStep st p))

theorem dedupByBase_length_pos (p : FileEntry × MatchType)
    (ps : List (FileEntry × MatchType)) : 1 ≤ (dedupByBase (p :: ps)).length := by
  unfold dedupByBase
  rw [List.foldl_cons]
  have h1 : dedupStep ([], []) p = ([canonBase p.1.name], [p]) := by
    simp [dedupStep]
  rw [h1]
  simpa using dedupFoldl_length_le ps ([canonBase p.1.name], [p])

theorem dedupStep_invariant (st : MState) (pm : FileEntry × MatchType)
    (h1 : DistinctBases st.2) (h2 : ∀ q ∈ st.2, canonBase q.1.name ∈ st.1) :
    DistinctBases (dedupStep st pm).2 ∧
      ∀ q ∈ (dedupStep st pm).2, canonBase q.1.name ∈ (dedupStep st pm).1 := by
  unfold dedupStep
  split
  · exact ⟨h1, h2⟩
  · rename_i hb
    constructor
    · unfold DistinctBases
      rw [List.pairwise_append]
      refine ⟨h1, List.pairwise_singleton _ _, ?_⟩
      intro a ha b hbm hcontra
      rw [List.mem_singleton] at hbm
      subst hbm
      exact hb (hcontra ▸ h2 a ha)
    · intro q hq
      rw [List.mem_append, List.mem_singleton] at hq
      rcases hq with hq | hq
      · exact List.mem_cons_of_mem _ (h2 q hq)
      · subst hq
        exact List.mem_cons_self _ _

theorem dedupFoldl_invariant (ps : List (FileEntry × MatchType)) :
    ∀ st : MState, DistinctBases st.2 → (∀ q ∈ st.2, canonBase q.1.name ∈ st.1) →
      DistinctBases (ps.foldl dedupStep st).2 := by
  induction ps with
  | nil => intro st h1 _; exact h1
  | cons p ps ih =>
    intro st h1 h2
    rw [List.foldl_cons]
    obtain ⟨h1', h2'⟩ := dedupStep_invariant st p h1 h2
    exact ih _ h1' h2'

theorem dedupByBase_distinct (ps : List (FileEntry × MatchType)) :
    DistinctBases (dedupByBase ps) := by
  unfold dedupByBase
  exact dedupFoldl_invariant ps ([], []) List.Pairwise.nil
    (fun q hq => absurd hq (List.not_mem_nil q))

theorem scanRecords_length (files : List FileEntry) (ts : List (List Char)) :
    (scanRecords files ts).1.length + (scanRecords files ts).2.length = ts.length := by
  induction ts with
  | nil => rfl
  | cons t ts ih =>
    by_cases h : (matchOne files t).isEmpty
    · simp only [scanRecords, h, if_pos, List.length_cons]
      omega
    · simp only [scanRecords, h, Bool.false_eq_true, if_neg, List.length_cons,
        not_false_iff]
      omega

theorem scanRecords_shape (files : List FileEntry) (ts : List (List Char)) :
    ∀ r ∈ (scanRecords files ts).1, ∃ p ps, r.matchList = dedupByBase (p :: ps) := by
  induction ts with
  | nil =>
    intro r hr
    exact absurd hr (List.not_mem_nil r)
  | cons t ts ih =>
    intro r hr
    by_cases h : (matchOne files t).isEmpty
    · simp only [scanRecords, h, if_pos] at hr
      exact ih r hr
    · simp only [scanRecords, h, Bool.false_eq_true, if_neg, not_false_iff] at hr
      rcases List.mem_cons.mp hr with hr | hr
      · subst hr
        have hne : matchOne files t ≠ [] := fun hnil => h (by rw [hnil]; rfl)
        obtain ⟨p, ps, hps⟩ := List.exists_cons_of_ne_nil hne
        exact ⟨p, ps, by rw [hps]⟩
      · exact ih r hr

theorem scanRecords_matchList_pos (files : List FileEntry) (ts : List (List Char)) :
    ∀ r ∈ (scanRecords files ts).1, 1 ≤ r.matchList.length := by
  intro r hr
  obtain ⟨p, ps, hl⟩ := scanRecords_shape files ts r hr
  rw [hl]
  exact dedupByBase_length_pos p ps

theorem uniqueMatchedOf_le (records : List MatchRecord) :
    uniqueMatchedOf records ≤ records.length :=
  le_trans (List.Sublist.length_le (List.dedup_sublist _)) (List.length_filterMap_le _ _)

theorem records_length_le_sum (records : List MatchRecord)
    (h : ∀ r ∈ records, 1 ≤ r.matchList.length) :
    records.length ≤ (records.map fun r => r.matchList.length).sum := by
  have h2 := List.length_le_sum_of_one_le (records.map fun r => r.matchList.length) ?_
  · simpa using h2
  · intro i hi
    obtain ⟨r, hr, rfl⟩ := List.mem_map.mp hi
    exact h r hr

/-! ## Concrete scenarios used by the claim theorems -/

/-- Reference tree containing the single file `a.pdf`. -/
def refA : List FileEntry :=
  [{ path := ("ref/a.pdf").toList, name := ("a.pdf").toList }]

/-- Target list containing `a.pdf` and its I-prefixed sibling `ia.pdf`. -/
def targetsAIA : List (List Char) := [("a.pdf").toList, ("ia.pdf").toList]

/-- Reference tree of the spec's I-prefix scenario: `I9.GR100.00.0.pdf` only. -/
def refC9 : List FileEntry :=
  [{ path := ("ref/I9.GR100.00.0.pdf").toList, name := ("I9.GR100.00.0.pdf").toList }]

/-- Target list of the spec's I-prefix scenario. -/
def targetC9 : List (List Char) := [("9.GR100.00.0.pdf").toList]

/-- The match record the I-prefix scenario is expected to produce. -/
def recC9 : MatchRecord :=
  { target := ("9.GR100.00.0.pdf").toList,
    matchList := [({ path := ("ref/I9.GR100.00.0.pdf").toList,
                     name := ("I9.GR100.00.0.pdf").toList },
                   MatchType.I_PREFIX_ADDED)] }

/-! ## C1 — count consistency -/

/-- C1, counterexample: with reference file `a.pdf` and targets `a.pdf`
and `ia.pdf`, both targets match but they share the canonical base name
`a.pdf`, so the reported `uniqueMatched` is 1 while `nonMatchedCount` is
0 and `totalTargets` is 2 — the claimed equation
`uniqueMatched + nonMatchedCount == totalTargets` fails. -/
theorem count_consistency_fails :
    (matchAll refA targetsAIA).uniqueMatched + (matchAll refA targetsAIA).nonMatchedCount
      ≠ (matchAll refA targetsAIA).totalTargets := by decide

/-- C1, amended: the number of matched target items plus the non-matched
count equals the total number of targets; the reported `uniqueMatched`
(distinct canonical base names among matched targets) is at most the
matched-item count; and `totalIndividualMatches` is at least
`uniqueMatched`. -/
theorem count_consistency_amended (files : List FileEntry) (targets : List (List Char)) :
    (matchAll files targets).records.length + (matchAll files targets).nonMatchedCount
        = (matchAll files targets).totalTargets
      ∧ (matchAll files targets).uniqueMatched ≤ (matchAll files targets).records.length
      ∧ (matchAll files targets).uniqueMatched
          ≤ (matchAll files targets).totalIndividualMatches := by
  refine ⟨?_, ?_, ?_⟩
  · simpa [matchAll] using scanRecords_length files targets
  · simp only [matchAll]
    exact uniqueMatchedOf_le _
  · simp only [matchAll]
    exact le_trans (uniqueMatchedOf_le _)
      (records_length_le_sum _ (scanRecords_matchList_pos files targets))

/-! ## C2 — per-record dedup invariant -/

/-- C2: in every match record produced by a scan, no two entries of the
record's match list share a canonical base name (lowercased, leading `i`
stripped); in particular a reference file and its I-prefixed sibling
never both survive as matches for one target. -/
theorem record_dedup_invariant (files : List FileEntry) (targets : List (List Char))
    (r : MatchRecord) (hr : r ∈ (matchAll files targets).records) :
    DistinctBases r.matchList := by
  have hr2 : r ∈ (scanRecords files targets).1 := by simpa [matchAll] using hr
  obtain ⟨p, ps, hl⟩ := scanRecords_shape files targets r hr2
  rw [hl]
  exact dedupByBase_distinct _

/-- C2, witness: the record of the I-prefix scenario is produced by a
scan and the theorem applies to it. -/
theorem record_dedup_invariant_witness :
    recC9 ∈ (matchAll refC9 targetC9).records ∧ DistinctBases recC9.matchList :=
  ⟨by decide, record_dedup_invariant refC9 targetC9 recC9 (by decide)⟩

/-! ## C9 — the I-prefix scenario -/

/-- C9: with reference index containing only `I9.GR100.00.0.pdf` and the
target list containing only `9.GR100.00.0.pdf`, the scan produces exactly
one matched target whose single surviving match has type
`I_PREFIX_ADDED` (the pattern strategy does not add a second match for
the same canonical base name), and no non-matched targets. -/
theorem i_prefix_single_match :
    (matchAll refC9 targetC9).records = [recC9]
      ∧ (matchAll refC9 targetC9).uniqueMatched = 1
      ∧ (matchAll refC9 targetC9).nonMatchedCount = 0 := by decide

/-! ## C3 — idempotence of the pattern function -/

/-- C3, counterexample: `extract_file_pattern "iix" = "ix"` (one leading
`i` stripped), but applying the function again strips a second `i`,
giving `"x"` — the function is not idempotent. -/
theorem pattern_not_idempotent :
    extract_file_pattern (extract_file_pattern (("iix").toList))
      ≠ extract_file_pattern (("iix").toList) := by decide

/-
Each strip step either leaves its input unchanged or returns something
strictly shorter; these length facts drive the converse direction of the
amended C3 theorem.
-/

theorem stripPdf_length_lt (s : List Char)
    (h : ((".pdf").toList).isSuffixOf s = true) : (stripPdf s).length < s.length := by
  have hlen : ((".pdf").toList).length = 4 := rfl
  have hle := (List.isSuffixOf_iff_suffix.mp h).length_le
  unfold stripPdf
  rw [if_pos h, List.length_take]
  omega

theorem stripPdf_eq_or_lt (s : List Char) :
    stripPdf s = s ∨ (stripPdf s).length < s.length := by
  cases hb : ((".pdf").toList).isSuffixOf s with
  | false =>
    left
    unfold stripPdf
    rw [hb]
    simp
  | true => exact Or.inr (stripPdf_length_lt s hb)

theorem stripUD_eq_or_lt (s : List Char) :
    stripUD s = s ∨ (stripUD s).length < s.length := by
  simp only [stripUD]
  split
  · exact Or.inl rfl
  · rename_i hn
    split
    · rename_i rest heq
      right
      have hlen := congrArg List.length heq
      simp only [List.length_drop, List.length_cons, List.length_reverse] at hlen ⊢
      omega
    · exact Or.inl rfl

theorem stripLeadingI_eq_or_lt (s : List Char) :
    stripLeadingI s = s ∨ (stripLeadingI s).length < s.length := by
  unfold stripLeadingI
  split
  · rename_i rest
    split
    · exact Or.inl rfl
    · right
      simp
  · exact Or.inl rfl

theorem stripUD_length_le (s : List Char) : (stripUD s).length ≤ s.length := by
  rcases stripUD_eq_or_lt s with h | h
  · rw [h]
  · exact Nat.le_of_lt h

theorem stripLeadingI_length_le (s : List Char) :
    (stripLeadingI s).length ≤ s.length := by
  rcases stripLeadingI_eq_or_lt s with h | h
  · rw [h]
  · exact Nat.le_of_lt h

/-- C3, amended: `extract_file_pattern` is idempotent at a filename if
and only if its pattern output is a fixed point of the three strip steps
— it does not end in `.pdf`, carries no trailing `_<digits>` run, and
does not start with a strippable leading `i`.  (The output is always
already lowercase.)  In general a second application can strip further,
as the counterexample shows. -/
theorem pattern_idempotent_iff_strip_fixed (f : List Char) :
    extract_file_pattern (extract_file_pattern f) = extract_file_pattern f
      ↔ ((".pdf").toList).isSuffixOf (extract_file_pattern f) = false
          ∧ stripUD (extract_file_pattern f) = extract_file_pattern f
          ∧ stripLeadingI (extract_file_pattern f) = extract_file_pattern f := by
  have hexp : extract_file_pattern (extract_file_pattern f)
      = stripLeadingI (stripUD (stripPdf (extract_file_pattern f))) := by
    have hdef : extract_file_pattern (extract_file_pattern f)
        = stripLeadingI (stripUD (stripPdf (lowerL (extract_file_pattern f)))) := rfl
    rw [hdef, lowerL_efp]
  constructor
  · intro hid
    have hP : stripPdf (extract_file_pattern f) = extract_file_pattern f := by
      rcases stripPdf_eq_or_lt (extract_file_pattern f) with h | h
      · exact h
      · exfalso
        have hu := stripUD_length_le (stripPdf (extract_file_pattern f))
        have hl := stripLeadingI_length_le (stripUD (stripPdf (extract_file_pattern f)))
        have hlt : (extract_file_pattern (extract_file_pattern f)).length
            < (extract_file_pattern f).length := by
          rw [hexp]
          omega
        rw [hid] at hlt
        omega
    have hU : stripUD (extract_file_pattern f) = extract_file_pattern f := by
      rcases stripUD_eq_or_lt (extract_file_pattern f) with h | h
      · exact h
      · exfalso
        have hl := stripLeadingI_length_le (stripUD (extract_file_pattern f))
        have hlt : (extract_file_pattern (extract_file_pattern f)).length
            < (extract_file_pattern f).length := by
          rw [hexp, hP]
          omega
        rw [hid] at hlt
        omega
    have hL : stripLeadingI (extract_file_pattern f) = extract_file_pattern f := by
      have h := hexp
      rw [hP, hU] at h
      rw [← h]
      exact hid
    have hS : ((".pdf").toList).isSuffixOf (extract_file_pattern f) = false := by
      cases hb : ((".pdf").toList).isSuffixOf (extract_file_pattern f) with
      | false => rfl
      | true =>
        exfalso
        have hlt := stripPdf_length_lt (extract_file_pattern f) hb
        rw [hP] at hlt
        omega
    exact ⟨hS, hU, hL⟩
  · rintro ⟨h1, h2, h3⟩
    rw [hexp]
    unfold stripPdf
    rw [h1]
    simp only [Bool.false_eq_true, if_false]
    rw [h2, h3]

/-! ## C7 — the two pattern-key functions -/

/-- C7, counterexample: on `a.pdf` the scan manager's pattern function
returns `a` (extension stripped) while the update manager's returns
`a.pdf` (extension kept) — the two functions do not implement the same
rule. -/
theorem pattern_functions_differ :
    extract_file_pattern (("a.pdf").toList)
      ≠ update_extract_file_pattern (("a.pdf").toList) := by decide

/-- C7, amended: the two pattern-key functions disagree in general (the
update manager's keeps the extension, strips `_<digits>` only directly
before `.pdf`, and drops a leading `i` only when a digit follows); they
do agree on every filename whose lowercased form does not end in `.pdf`,
has no trailing `_<digits>` run, and has no strippable leading `i` — on
such names both return the lowercased name unchanged. -/
theorem pattern_functions_agree_off_pdf (f : List Char)
    (h1 : ((".pdf").toList).isSuffixOf (lowerL f) = false)
    (h2 : stripUD (lowerL f) = lowerL f)
    (h3 : stripLeadingI (lowerL f) = lowerL f) :
    extract_file_pattern f = update_extract_file_pattern f := by
  simp only [extract_file_pattern, update_extract_file_pattern, stripPdf, h1,
    Bool.false_eq_true, if_false, h2, h3]

/-- C7, witness: `abc.txt` satisfies the side conditions and both
functions return `abc.txt`. -/
theorem pattern_functions_agree_witness :
    ((".pdf").toList).isSuffixOf (lowerL (("abc.txt").toList)) = false
      ∧ extract_file_pattern (("abc.txt").toList)
          = update_extract_file_pattern (("abc.txt").toList) :=
  ⟨by decide, pattern_functions_agree_off_pdf _ (by decide) (by decide) (by decide)⟩

/-! ## C5 — existing destination files in the copy loops -/

/-- A destination directory that already holds `a.pdf`. -/
def destBefore : Dir :=
  fun n => if n = (("a.pdf").toList) then some (("dest-old/a.pdf").toList) else none

/-- An entry to be copied whose name collides with the existing file. -/
def collidingEntry : CopyEntry :=
  { path := ("src/a.pdf").toList, name := ("a.pdf").toList, mtime := 0 }

/-- C5, counterexample (against the claim, in the `copy_matched_files`
flow): the destination already holds `a.pdf`, yet after the copy loop
the destination file is backed by the copied source — the existing file
was replaced, not left unchanged (and the loop has no "already exists"
outcome at all; it reports the entry as copied). -/
theorem copy_overwrites_existing :
    (destBefore (("a.pdf").toList)).isSome = true
      ∧ runCopyLoop destBefore [collidingEntry] (("a.pdf").toList)
          ≠ destBefore (("a.pdf").toList) := by
  constructor
  · rfl
  · decide

theorem lastNamed_cons (e : CopyEntry) (es : List CopyEntry) (n : List Char) :
    lastNamed (e :: es) n
      = match lastNamed es n with
        | some x => some x
        | none => if e.name = n then some e else none := rfl

/-- The `copy_matched_files` loop calls `shutil.copy2` unconditionally,
so after an error-free run each destination name holds the last entry
copied under that name — existing destination files with a colliding
name are overwritten, and only names never copied keep their previous
content. -/
theorem copy_last_writer_wins (d : Dir) (es : List CopyEntry) (n : List Char) :
    runCopyLoop d es n = finalContent d es n := by
  induction es generalizing d with
  | nil => rfl
  | cons e es ih =>
    have hstep : runCopyLoop d (e :: es) = runCopyLoop (setFile d e.name e.path) es := rfl
    rw [hstep, ih (setFile d e.name e.path)]
    unfold finalContent
    rw [lastNamed_cons]
    cases hlast : lastNamed es n with
    | some x => rfl
    | none =>
      simp only [setFile]
      by_cases hn : n = e.name
      · subst hn
        simp
      · rw [if_neg hn, if_neg (fun h => hn h.symm)]

/-- C5, amended: neither copy flow skips-and-reports an existing
destination.  First conjunct, `copy_matched_files`: the loop calls
`shutil.copy2` unconditionally, so each destination name ends up backed
by the last entry copied under it — an entry whose destination already
exists overwrites it and is reported as copied.  Second conjunct,
`copy_non_matched_files`: the loop reads `file_info.get('path', '')`
from entry dicts whose only keys are `source_path` and `target_name`,
so the source-path string is empty for every deduplicated entry — no
entry is ever copied or overwritten in that flow, and no "already
exists" outcome is reported in either flow. -/
theorem copy_flows_behavior :
    (∀ (d : Dir) (es : List CopyEntry) (n : List Char),
        runCopyLoop d es n = finalContent d es n)
      ∧ ∀ src nm : List Char, dget (mkEntryDict src nm) (("path").toList) [] = [] := by
  constructor
  · exact copy_last_writer_wins
  · intro src nm
    rfl

/-! ## C6 — pre-copy dedup and the newer-mtime rule -/

/-- Two non-matched entries with the same filename, the second one newer. -/
def entryOlder : CopyEntry :=
  { path := ("src1/a.pdf").toList, name := ("a.pdf").toList, mtime := 1 }

def entryNewer : CopyEntry :=
  { path := ("src2/a.pdf").toList, name := ("a.pdf").toList, mtime := 5 }

/-- C6: the dedup does key by canonical base name, but the first
encountered entry is kept — not the one with the newer modification
time.  Any repeated filename shares its base name with the entry already
stored, so the `continue` on `base_name in base_name_to_file` fires
before the newer-mtime comparison can run: the replacement branch is
unreachable.  Here the older entry (mtime 1) survives and the newer one
(mtime 5) is dropped, contradicting the claim and the code's own
"Keep the newer file" comment. -/
theorem copy_dedup_keeps_first_not_newer :
    entryOlder.mtime < entryNewer.mtime
      ∧ copyableFiles [entryOlder, entryNewer] = [entryOlder] := by
  constructor
  · decide
  · decide

/-! ## C8 — section-path validation -/

/-- C8, counterexample: with reference root `/data/ref` and an existing
directory `/data/refx` (a sibling, not a descendant), the string-prefix
containment test keeps the section, although it is not a path-component
descendant of the root — so files outside the root's subtree can enter
the index. -/
theorem section_filter_admits_non_descendant :
    sectionFilter [("/data/refx").toList] (("/data/ref").toList)
        [("/data/refx").toList]
        = [("/data/refx").toList]
      ∧ isDescendantPath (("/data/ref").toList) (("/data/refx").toList) = false := by
  constructor
  · decide
  · decide

/-- C8, amended: a selected section survives the validation iff it is an
existing directory whose resolved path string has the root's resolved
path string as a plain string prefix; sections failing any of the checks
are silently dropped.  The string-prefix test is weaker than descendant
containment, as the counterexample shows. -/
theorem section_filter_spec (dirs : List (List Char)) (root : List Char)
    (sections : List (List Char)) (s : List Char) :
    s ∈ sectionFilter dirs root sections
      ↔ s ∈ sections ∧ s ∈ dirs ∧ List.IsPrefix root s := by
  unfold sectionFilter
  rw [List.mem_filter]
  simp [List.isPrefixOf_iff_prefix, and_assoc]

/-- C8, witness for the amended theorem: a genuine subdirectory of the
root passes the filter. -/
theorem section_filter_spec_witness :
    (("/data/ref/s1").toList) ∈ sectionFilter [("/data/ref/s1").toList]
        (("/data/ref").toList) [("/data/ref/s1").toList] :=
  (section_filter_spec [("/data/ref/s1").toList] (("/data/ref").toList)
      [("/data/ref/s1").toList] (("/data/ref/s1").toList)).mpr
    ⟨by decide, by decide, by decide⟩

/-! ## C10 — placement fan-out count invariant -/

theorem placeStep_sum (st : PlaceStats) (t : PlaceTarget) :
    (placeStep st t).filesCopied + (placeStep st t).existsCount + (placeStep st t).errors
      = st.filesCopied + st.existsCount + st.errors + 1 := by
  unfold placeStep
  cases placeOne t <;> simp <;> omega

theorem placeStep_targets (st : PlaceStats) (t : PlaceTarget) :
    (placeStep st t).targetsFound = st.targetsFound := by
  unfold placeStep
  cases placeOne t <;> rfl

theorem foldl_place_sum (ts : List PlaceTarget) :
    ∀ st : PlaceStats,
      (ts.foldl placeStep st).filesCopied + (ts.foldl placeStep st).existsCount
          + (ts.foldl placeStep st).errors
        = st.filesCopied + st.existsCount + st.errors + ts.length := by
  induction ts with
  | nil => intro st; simp
  | cons t ts ih =>
    intro st
    rw [List.foldl_cons, ih (placeStep st t), placeStep_sum, List.length_cons]
    omega

theorem foldl_place_targets (ts : List PlaceTarget) :
    ∀ st : PlaceStats, (ts.foldl placeStep st).targetsFound = st.targetsFound := by
  induction ts with
  | nil => intro st; rfl
  | cons t ts ih =>
    intro st
    rw [List.foldl_cons, ih, placeStep_targets]

/-- C10: every found target directory contributes exactly one outcome to
the statistics of `distribute_file_to_mix_folders` — copied, already
exists, or error — so `targets_found = files_copied + exists + errors`
for every run of the placement loop. -/
theorem placement_counts_sum (ts : List PlaceTarget) :
    (distributeStats ts).targetsFound
      = (distributeStats ts).filesCopied + (distributeStats ts).existsCount
        + (distributeStats ts).errors := by
  unfold distributeStats
  rw [foldl_place_sum, foldl_place_targets]
  simp

end Usta
